import Mathlib

/-!
Shallow embedding of `at_simulation.py` (class `ATSimulation`) from the
AEM_Transport repository, together with theorems settling the spec's claims
about it.

Modelling conventions:
* Python floats are modelled as real numbers (`ℝ`).
* The external special-function provider `mf.Mathieu(q)` is modelled as a
  parameter `M : ℝ → MathieuProvider`; each call site that constructs a
  provider (`m = mf.Mathieu(q)`) additionally records the shape parameter `q`
  in a construction log, so that resource claims about provider construction
  can be stated.
* `np.linalg.lstsq` is external; it is modelled as a parameter
  `lstsq : List (List ℝ) → List ℝ → (ℕ → ℝ)`.
* Python exceptions that the simulation code can raise on the modelled paths
  (`ValueError` for an empty element list in `run`, `ValueError` from
  `range(0, n, 0)` in `solve_system`) are modelled with `Except ATError`.
* Element geometry setup (`calc_d_q`, `set_outline`, `calc_target`) is an
  external collaborator; `run` takes it as an opaque update function `setup`.
-/

namespace AT

/-- Element kind, from `at_element.ATElementType` (`Circle` | `Line`). -/
inductive ATElementType where
  | Circle : ATElementType
  | Line : ATElementType
deriving DecidableEq

/-- Element data used by the simulation core: position `(x, y)`, focal
parameter `d`, shape parameter `q`, boundary outline, boundary target values,
interior predicate `is_inside` and fixed interior value `c_inside`. -/
structure ATElement where
  kind : ATElementType
  x : ℝ
  y : ℝ
  d : ℝ
  q : ℝ
  outline : List (ℝ × ℝ)
  target : List ℝ
  is_inside : ℝ → ℝ → Bool
  c_inside : ℝ

/-- Configuration scalars and the element list, from `ATConfiguration`. -/
structure ATConfiguration where
  alpha_t : ℝ
  alpha_l : ℝ
  beta : ℝ
  gamma : ℝ
  ca : ℝ
  num_cp : ℕ
  num_terms : ℕ
  dom_xmin : ℝ
  dom_ymin : ℝ
  dom_xmax : ℝ
  dom_ymax : ℝ
  dom_inc : ℝ
  elements : List ATElement

/-- Interface of one constructed special-function provider `mf.Mathieu(q)`:
angular Mathieu functions `ce`/`se` and radial ones `Ke`/`Ko` (real parts, as
the simulation code discards the imaginary component). -/
structure MathieuProvider where
  ce : ℕ → ℝ → ℝ
  se : ℕ → ℝ → ℝ
  Ke : ℕ → ℝ → ℝ
  Ko : ℕ → ℝ → ℝ

/-- Errors the modelled code paths can raise: the empty-element-list
`ValueError` in `run`, and the `ValueError` from `range(0, n, 0)` when the
row-chunking step in `solve_system` is zero. -/
inductive ATError where
  | noElements : ATError
  | rangeStepZero : ATError
deriving DecidableEq

/-- Clipping, from `np.clip(v, lo, hi)` (equivalent to `min hi (max v lo)`). -/
def clip (v lo hi : ℝ) : ℝ := min hi (max v lo)

/-- Anisotropy-scaled ordinate `Y = sqrt(alpha_l / alpha_t) * y`
(`calc_uv`, line 123). -/
noncomputable def Yval (alpha_l alpha_t y : ℝ) : ℝ :=
  Real.sqrt (alpha_l / alpha_t) * y

/-- Quadratic coefficient `B = x^2 + Y^2 - d^2` (`calc_uv`, line 124). -/
noncomputable def Bval (alpha_l alpha_t x y d : ℝ) : ℝ :=
  x ^ 2 + Yval alpha_l alpha_t y ^ 2 - d ^ 2

/-- Discriminant root `f1 = sqrt(B^2 + 4 d^2 x^2)` (`calc_uv`, line 125). -/
noncomputable def f1val (alpha_l alpha_t x y d : ℝ) : ℝ :=
  Real.sqrt (Bval alpha_l alpha_t x y d ^ 2 + 4 * d ^ 2 * x ^ 2)

/-- Angular root `p = (-B + f1) / (2 d^2)` (`calc_uv`, line 127). -/
noncomputable def pval (alpha_l alpha_t x y d : ℝ) : ℝ :=
  (-Bval alpha_l alpha_t x y d + f1val alpha_l alpha_t x y d) / (2 * d ^ 2)

/-- Radial root `q = (-B - f1) / (2 d^2)` (`calc_uv`, line 128). -/
noncomputable def qval (alpha_l alpha_t x y d : ℝ) : ℝ :=
  (-Bval alpha_l alpha_t x y d - f1val alpha_l alpha_t x y d) / (2 * d ^ 2)

/-- Principal arcsine of the clipped angular root,
`psi_0 = asin(clip(sqrt(p), -1, 1))` (`calc_uv`, lines 131-132). -/
noncomputable def psi0val (alpha_l alpha_t x y d : ℝ) : ℝ :=
  Real.arcsin (clip (Real.sqrt (pval alpha_l alpha_t x y d)) (-1) 1)

/-- Radial coordinate `eta = 0.5 * log(1 - 2 q + 2 sqrt(q^2 - q))`
(`calc_uv`, line 154). -/
noncomputable def etaval (alpha_l alpha_t x y d : ℝ) : ℝ :=
  0.5 * Real.log (1 - 2 * qval alpha_l alpha_t x y d +
    2 * Real.sqrt (qval alpha_l alpha_t x y d ^ 2 - qval alpha_l alpha_t x y d))

/-- Elliptic-coordinate transform `calc_uv(x, y, d)`, returning `(eta, psi)`;
`psi` is resolved from `psi_0` by the four-branch sign rule on `(Y, x)`
(`calc_uv`, lines 117-155). -/
noncomputable def calc_uv (alpha_l alpha_t x y d : ℝ) : ℝ × ℝ :=
  (etaval alpha_l alpha_t x y d,
    if 0 ≤ Yval alpha_l alpha_t y then
      (if 0 ≤ x then psi0val alpha_l alpha_t x y d
       else 2 * Real.pi - psi0val alpha_l alpha_t x y d)
    else
      (if 0 ≤ x then Real.pi - psi0val alpha_l alpha_t x y d
       else Real.pi + psi0val alpha_l alpha_t x y d))

/-- Basis product for order `o`: `calc_mathieu1(order, psi, eta, q)` builds a
provider `m = mf.Mathieu(q)` and returns `ce(order, psi) * Ke(order, eta)`
(lines 157-162); the second component records the provider construction. -/
def calc_mathieu1 (M : ℝ → MathieuProvider) (order : ℕ) (psi eta q : ℝ) :
    ℝ × List ℝ :=
  let m := M q
  (m.ce order psi * m.Ke order eta, [q])

/-- Basis pair for order `o ≥ 1`: `calc_mathieu2(order, psi, eta, q)` builds a
provider and returns `(se * Ko, ce * Ke)` (lines 164-171); the second component
records the provider construction. -/
def calc_mathieu2 (M : ℝ → MathieuProvider) (order : ℕ) (psi eta q : ℝ) :
    (ℝ × ℝ) × List ℝ :=
  let m := M q
  let Se := m.ce order psi
  let So := m.se order psi
  let Ye := m.Ke order eta
  let Yo := m.Ko order eta
  ((So * Yo, Se * Ye), [q])

/-- Per-element factor of `calc_c` (lines 102-107): elliptic coordinates of the
offset to `elem`, order-0 term weighted by `coeff[0]`, then for each order
`i ∈ [1, num_terms)` the odd term weighted by `coeff[2i-1]` and the even term
weighted by `coeff[2i]`. The second component is the provider-construction
log. -/
noncomputable def elemFactor (M : ℝ → MathieuProvider) (cfg : ATConfiguration)
    (coeff : ℕ → ℝ) (x y : ℝ) (elem : ATElement) : ℝ × List ℝ :=
  let uv := calc_uv cfg.alpha_l cfg.alpha_t (x - elem.x) (y - elem.y) elem.d
  let m1 := calc_mathieu1 M 0 uv.2 uv.1 elem.q
  (List.range' 1 (cfg.num_terms - 1)).foldl
    (fun acc i =>
      let m2 := calc_mathieu2 M i uv.2 uv.1 elem.q
      (acc.1 + (coeff (2 * i - 1) * m2.1.1 + coeff (2 * i) * m2.1.2),
        acc.2 ++ m2.2))
    (coeff 0 * m1.1, m1.2)

/-- Point evaluator `calc_c(x, y)` (lines 94-115): interior fast path via the
first element whose `is_inside` holds, otherwise the accumulated
basis-weighted total over all elements followed by the two-branch
post-processing against `ca`. The second component is the
provider-construction log. -/
noncomputable def calc_c (M : ℝ → MathieuProvider) (cfg : ATConfiguration)
    (coeff : ℕ → ℝ) (x y : ℝ) : ℝ × List ℝ :=
  match cfg.elements.find? (fun e => e.is_inside x y) with
  | some elem => (elem.c_inside, [])
  | none =>
    let tl := cfg.elements.foldl
      (fun acc elem =>
        let f := elemFactor M cfg coeff x y elem
        (acc.1 + f.1 * Real.exp (cfg.beta * x), acc.2 ++ f.2))
      ((0 : ℝ), ([] : List ℝ))
    let diff := tl.1 - cfg.ca
    (if cfg.ca < tl.1 then diff / cfg.gamma else diff, tl.2)

/-- Accumulated pre-postprocessing total of `calc_c` (line 108), written as a
sum over elements of the per-element factor times `exp(beta * x)`. -/
noncomputable def thresholdSum (M : ℝ → MathieuProvider) (cfg : ATConfiguration)
    (coeff : ℕ → ℝ) (x y : ℝ) : ℝ :=
  (cfg.elements.map
    (fun elem => (elemFactor M cfg coeff x y elem).1 * Real.exp (cfg.beta * x))).sum

/-- Basis entries appended to `elem1.m_list` for one collocation point `i` of
source element index `e1` under influencing element index `e2`
(`solve_system`, lines 191-205): the point is translated by the center offset
when `e1 ≠ e2`, transformed with `elem2.d`, and the basis values for orders
`0, 1, ..., num_terms-1` are listed as `[order0_even, order1_odd, order1_even, ...]`. -/
noncomputable def mlistEntry (M : ℝ → MathieuProvider) (cfg : ATConfiguration)
    (e1 : ℕ) (elem1 : ATElement) (e2 : ℕ) (elem2 : ATElement) (i : ℕ) : List ℝ :=
  let p := elem1.outline.getD i (0, 0)
  let x := if e1 ≠ e2 then p.1 + (elem1.x - elem2.x) else p.1
  let y := if e1 ≠ e2 then p.2 + (elem1.y - elem2.y) else p.2
  let uv := calc_uv cfg.alpha_l cfg.alpha_t x y elem2.d
  (calc_mathieu1 M 0 uv.2 uv.1 elem2.q).1 ::
    (List.range' 1 (cfg.num_terms - 1)).flatMap
      (fun j =>
        let m2 := calc_mathieu2 M j uv.2 uv.1 elem2.q
        [m2.1.1, m2.1.2])

/-- Working buffer `elem1.m_list` for source element index `e1`
(`solve_system`, lines 182-205): outer loop over influencing elements `e2` in
element-index order, inner loop over collocation points `i < num_cp`. -/
noncomputable def m_list (M : ℝ → MathieuProvider) (cfg : ATConfiguration)
    (e1 : ℕ) (elem1 : ATElement) : List ℝ :=
  cfg.elements.enum.flatMap
    (fun pe2 =>
      (List.range cfg.num_cp).flatMap
        (fun i => mlistEntry M cfg e1 elem1 pe2.1 pe2.2 i))

/-- Row chunking of `m_list` (`solve_system`, lines 209-210): Python slices
`m_list[i:i+s]` for `i = 0, s, 2s, ...`; `range(0, n, 0)` raises `ValueError`,
modelled as `ATError.rangeStepZero`. -/
def chunkRows (s : ℕ) (l : List ℝ) : Except ATError (List (List ℝ)) :=
  if s = 0 then Except.error ATError.rangeStepZero
  else Except.ok
    ((List.range ((l.length + s - 1) / s)).map (fun k => (l.drop (k * s)).take s))

/-- Least-squares matrix `perspective_vector` (`solve_system`, lines 177-210):
for each source element, its `m_list` chunked with step
`s = (num_elems * num_terms - 1) * num_elems` (line 208), all chunks
concatenated in element order. -/
noncomputable def perspective_vector (M : ℝ → MathieuProvider)
    (cfg : ATConfiguration) : Except ATError (List (List ℝ)) :=
  let n := cfg.elements.length
  let s := (n * cfg.num_terms - 1) * n
  (cfg.elements.enum.mapM (fun pe1 => chunkRows s (m_list M cfg pe1.1 pe1.2))).map
    (fun chunks => chunks.flatten)

/-- Target vector (`solve_system`, line 212): concatenation of each element's
target values in element order. -/
def target_function_vector (cfg : ATConfiguration) : List ℝ :=
  cfg.elements.flatMap (fun e => e.target)

/-- System assembly and solve (`solve_system`, lines 173-216); the external
`np.linalg.lstsq` is the parameter `lstsq`, and the solved coefficient vector
is its result on the assembled matrix and target. -/
noncomputable def solve_system (M : ℝ → MathieuProvider)
    (lstsq : List (List ℝ) → List ℝ → (ℕ → ℝ)) (cfg : ATConfiguration) :
    Except ATError (ℕ → ℝ) :=
  (perspective_vector M cfg).map (fun A => lstsq A (target_function_vector cfg))

/-- Length of `np.arange(start, stop, step)` for positive `step`:
`ceil((stop - start) / step)`, clamped at zero. -/
noncomputable def arangeLen (start stop step : ℝ) : ℕ :=
  Nat.ceil ((stop - start) / step)

/-- Half-open axis `np.arange(start, stop, step)` (`conc_array`, lines 83-84). -/
noncomputable def arange (start stop step : ℝ) : List ℝ :=
  (List.range (arangeLen start stop step)).map
    (fun (k : ℕ) => start + (k : ℝ) * step)

/-- Grid evaluator `conc_array` (lines 82-92): `result` has one row per
x-axis entry and one column per y-axis entry, and `result[j][i]` is
`calc_c(xaxis[j], yaxis[i])` (every cell of the zero-initialised array is
written by the double loop). -/
noncomputable def conc_array (M : ℝ → MathieuProvider) (cfg : ATConfiguration)
    (coeff : ℕ → ℝ) (xmin ymin xmax ymax inc : ℝ) : List (List ℝ) :=
  (arange xmin xmax inc).map
    (fun xv => (arange ymin ymax inc).map
      (fun yv => (calc_c M cfg coeff xv yv).1))

/-- Configuration with the element list replaced (record update). -/
def setElements (cfg : ATConfiguration) (es : List ATElement) : ATConfiguration :=
  ⟨cfg.alpha_t, cfg.alpha_l, cfg.beta, cfg.gamma, cfg.ca, cfg.num_cp,
    cfg.num_terms, cfg.dom_xmin, cfg.dom_ymin, cfg.dom_xmax, cfg.dom_ymax,
    cfg.dom_inc, es⟩

/-- Geometry setup phase of `run` (lines 46-53): the external per-element
setup (`calc_d_q`, `set_outline`, `calc_target`) is applied to each `Circle`
element; `Line` elements are left untouched. -/
noncomputable def run_setup (setup : ATElement → ATElement)
    (cfg : ATConfiguration) : ATConfiguration :=
  setElements cfg
    (cfg.elements.map
      (fun e => match e.kind with
        | ATElementType.Circle => setup e
        | ATElementType.Line => e))

/-- Driver `run` (lines 33-63): the empty-element-list `ValueError` is raised
first (lines 34-35); then the geometry setup runs, the system is solved, and
the grid is evaluated over the configured domain. Timing and plotting
(lines 65-80) are external and not modelled. -/
noncomputable def run (M : ℝ → MathieuProvider)
    (lstsq : List (List ℝ) → List ℝ → (ℕ → ℝ)) (setup : ATElement → ATElement)
    (cfg : ATConfiguration) : Except ATError ((ℕ → ℝ) × List (List ℝ)) :=
  if cfg.elements.length = 0 then Except.error ATError.noElements
  else
    (solve_system M lstsq (run_setup setup cfg)).map
      (fun coeff =>
        (coeff, conc_array M (run_setup setup cfg) coeff cfg.dom_xmin
          cfg.dom_ymin cfg.dom_xmax cfg.dom_ymax cfg.dom_inc))

/-- Provider family whose basis functions are constantly `1`, used for
concrete test configurations. -/
def Mconst : ℝ → MathieuProvider :=
  fun _ => ⟨fun _ _ => 1, fun _ _ => 1, fun _ _ => 1, fun _ _ => 1⟩

/-- Circular element at the origin with `d = q = 1`, one boundary point, one
target value, interior predicate constantly false. -/
def elemOut : ATElement :=
  ⟨ATElementType.Circle, 0, 0, 1, 1, [(1, 0)], [1], fun _ _ => false, 0⟩

/-- Circular element at `(3, 0)` with `d = q = 1`, interior predicate
constantly false. -/
def elemFar : ATElement :=
  ⟨ATElementType.Circle, 3, 0, 1, 1, [(1, 0)], [1], fun _ _ => false, 0⟩

/-- Circular element whose interior predicate is constantly true, with fixed
interior value `7`. -/
def elemIn : ATElement :=
  ⟨ATElementType.Circle, 0, 0, 1, 1, [(1, 0)], [1], fun _ _ => true, 7⟩

/-- Circular element at the origin with shape parameter `q = 5`, interior
predicate constantly false. -/
def elemQ5 : ATElement :=
  ⟨ATElementType.Circle, 0, 0, 1, 5, [(1, 0)], [1], fun _ _ => false, 0⟩

/-- Configuration with one element, `num_cp = 1`, `num_terms = 2`. -/
def cfgC1 : ATConfiguration :=
  ⟨1, 1, 0, 1, 0, 1, 2, 0, 0, 1, 1, 1, [elemOut]⟩

/-- Configuration with two elements and `num_terms = 1`. -/
def cfgC2 : ATConfiguration :=
  ⟨1, 1, 0, 1, 0, 1, 1, 0, 0, 1, 1, 1, [elemOut, elemFar]⟩

/-- Configuration whose first element contains every point. -/
def cfgC5 : ATConfiguration :=
  ⟨1, 1, 0, 1, 0, 1, 1, 0, 0, 1, 1, 1, [elemIn, elemOut]⟩

/-- Configuration with one element of shape parameter `q = 5` and
`num_terms = 2`. -/
def cfgC6 : ATConfiguration :=
  ⟨1, 1, 0, 1, 0, 1, 2, 0, 0, 1, 1, 1, [elemQ5]⟩

/-- Coefficient vector that is identically zero. -/
def coeffA : ℕ → ℝ := fun _ => 0

/-- Coefficient vector that is zero at index `0` and `100` elsewhere. -/
def coeffB : ℕ → ℝ := fun i => if i = 0 then 0 else 100

lemma abs_B_le_f1val (alpha_l alpha_t x y d : ℝ) :
    |Bval alpha_l alpha_t x y d| ≤ f1val alpha_l alpha_t x y d := by
  have h : Bval alpha_l alpha_t x y d ^ 2 ≤
      Bval alpha_l alpha_t x y d ^ 2 + 4 * d ^ 2 * x ^ 2 := by
    nlinarith [sq_nonneg (d * x)]
  calc |Bval alpha_l alpha_t x y d|
      = Real.sqrt (Bval alpha_l alpha_t x y d ^ 2) := (Real.sqrt_sq_eq_abs _).symm
    _ ≤ f1val alpha_l alpha_t x y d := Real.sqrt_le_sqrt h

lemma pval_nonneg (alpha_l alpha_t x y d : ℝ) :
    0 ≤ pval alpha_l alpha_t x y d := by
  have hnum : 0 ≤ -Bval alpha_l alpha_t x y d + f1val alpha_l alpha_t x y d := by
    have h1 := abs_B_le_f1val alpha_l alpha_t x y d
    have h2 := le_abs_self (Bval alpha_l alpha_t x y d)
    linarith
  exact div_nonneg hnum (by positivity)

lemma pval_pos (alpha_l alpha_t x y d : ℝ) (hd : d ≠ 0) (hx : x ≠ 0) :
    0 < pval alpha_l alpha_t x y d := by
  have hlt : Bval alpha_l alpha_t x y d ^ 2 <
      Bval alpha_l alpha_t x y d ^ 2 + 4 * d ^ 2 * x ^ 2 := by
    have hdx : 0 < 4 * d ^ 2 * x ^ 2 := by positivity
    linarith
  have hf1 : |Bval alpha_l alpha_t x y d| < f1val alpha_l alpha_t x y d := by
    have := Real.sqrt_lt_sqrt (sq_nonneg (Bval alpha_l alpha_t x y d)) hlt
    simpa [Real.sqrt_sq_eq_abs, f1val] using this
  have hnum : 0 < -Bval alpha_l alpha_t x y d + f1val alpha_l alpha_t x y d := by
    have h2 := le_abs_self (Bval alpha_l alpha_t x y d)
    linarith
  exact div_pos hnum (by positivity)

lemma qval_nonpos (alpha_l alpha_t x y d : ℝ) (hd : d ≠ 0) :
    qval alpha_l alpha_t x y d ≤ 0 := by
  have hnum : -Bval alpha_l alpha_t x y d - f1val alpha_l alpha_t x y d ≤ 0 := by
    have h1 := abs_B_le_f1val alpha_l alpha_t x y d
    have h2 := neg_abs_le (Bval alpha_l alpha_t x y d)
    linarith
  have hden : (0 : ℝ) < 2 * d ^ 2 := by positivity
  exact div_nonpos_of_nonpos_of_nonneg hnum hden.le

lemma log_arg_ge_one (alpha_l alpha_t x y d : ℝ) (hd : d ≠ 0) :
    1 ≤ 1 - 2 * qval alpha_l alpha_t x y d +
      2 * Real.sqrt (qval alpha_l alpha_t x y d ^ 2 - qval alpha_l alpha_t x y d) := by
  have hq := qval_nonpos alpha_l alpha_t x y d hd
  have hs : 0 ≤ Real.sqrt (qval alpha_l alpha_t x y d ^ 2 - qval alpha_l alpha_t x y d) :=
    Real.sqrt_nonneg _
  linarith

lemma etaval_nonneg (alpha_l alpha_t x y d : ℝ) (hd : d ≠ 0) :
    0 ≤ etaval alpha_l alpha_t x y d := by
  have h1 := log_arg_ge_one alpha_l alpha_t x y d hd
  have hlog : 0 ≤ Real.log (1 - 2 * qval alpha_l alpha_t x y d +
      2 * Real.sqrt (qval alpha_l alpha_t x y d ^ 2 - qval alpha_l alpha_t x y d)) :=
    Real.log_nonneg h1
  have : (0.5 : ℝ) ≥ 0 := by norm_num
  unfold etaval
  nlinarith

lemma psi0val_nonneg (alpha_l alpha_t x y d : ℝ) :
    0 ≤ psi0val alpha_l alpha_t x y d := by
  unfold psi0val
  apply Real.arcsin_nonneg.mpr
  unfold clip
  have h1 : (0 : ℝ) ≤ Real.sqrt (pval alpha_l alpha_t x y d) := Real.sqrt_nonneg _
  have h2 : (0 : ℝ) ≤ max (Real.sqrt (pval alpha_l alpha_t x y d)) (-1) :=
    le_trans h1 (le_max_left _ _)
  exact le_min (by norm_num) h2

lemma psi0val_le_pi_div_two (alpha_l alpha_t x y d : ℝ) :
    psi0val alpha_l alpha_t x y d ≤ Real.pi / 2 :=
  Real.arcsin_le_pi_div_two _

lemma psi0val_pos (alpha_l alpha_t x y d : ℝ) (hd : d ≠ 0) (hx : x ≠ 0) :
    0 < psi0val alpha_l alpha_t x y d := by
  apply Real.arcsin_pos.mpr
  have hp : 0 < pval alpha_l alpha_t x y d := pval_pos alpha_l alpha_t x y d hd hx
  have hs : 0 < Real.sqrt (pval alpha_l alpha_t x y d) := Real.sqrt_pos.mpr hp
  unfold clip
  have h2 : 0 < max (Real.sqrt (pval alpha_l alpha_t x y d)) (-1) :=
    lt_of_lt_of_le hs (le_max_left _ _)
  exact lt_min one_pos h2

lemma foldl_snd_log {α β γ : Type} (f : α × List β → γ → α) (c : γ → List β)
    (l : List γ) :
    ∀ init : α × List β,
      (l.foldl (fun acc i => (f acc i, acc.2 ++ c i)) init).2 =
        init.2 ++ l.flatMap c := by
  induction l with
  | nil => intro init; simp
  | cons i is ih =>
    intro init
    simp only [List.foldl_cons, List.flatMap_cons]
    rw [ih]
    simp [List.append_assoc]

lemma foldl_fst_sum {γ : Type} (g : γ → ℝ) (c : ℝ × List ℝ → γ → List ℝ)
    (l : List γ) :
    ∀ init : ℝ × List ℝ,
      (l.foldl (fun acc i => (acc.1 + g i, c acc i)) init).1 =
        init.1 + (l.map g).sum := by
  induction l with
  | nil => intro init; simp
  | cons i is ih =>
    intro init
    simp only [List.foldl_cons, List.map_cons, List.sum_cons]
    rw [ih]
    ring

lemma flatMap_const_singleton {α β : Type} (l : List α) (b : β) :
    l.flatMap (fun _ => [b]) = List.replicate l.length b := by
  induction l with
  | nil => simp
  | cons a as ih => simp [ih, List.replicate_succ]

lemma elemFactor_log (M : ℝ → MathieuProvider) (cfg : ATConfiguration)
    (coeff : ℕ → ℝ) (x y : ℝ) (elem : ATElement) (ht : 1 ≤ cfg.num_terms) :
    (elemFactor M cfg coeff x y elem).2 =
      List.replicate cfg.num_terms elem.q := by
  unfold elemFactor calc_mathieu1 calc_mathieu2
  simp only []
  rw [foldl_snd_log]
  rw [flatMap_const_singleton]
  simp only [List.length_range']
  rw [show ∀ n : ℕ, [elem.q] ++ List.replicate n elem.q =
      List.replicate (n + 1) elem.q from fun n => by
        simp [List.replicate_succ]]
  congr 1
  omega

lemma elemFactor_coeff_congr (M : ℝ → MathieuProvider) (cfg : ATConfiguration)
    (coeff coeff2 : ℕ → ℝ) (x y : ℝ) (elem : ATElement)
    (ht : 1 ≤ cfg.num_terms)
    (h : ∀ i, i < 2 * cfg.num_terms - 1 → coeff i = coeff2 i) :
    elemFactor M cfg coeff x y elem = elemFactor M cfg coeff2 x y elem := by
  unfold elemFactor
  rw [h 0 (by omega)]
  apply List.foldl_ext
  intro acc i hi
  rw [List.mem_range'_1] at hi
  rw [h (2 * i - 1) (by omega), h (2 * i) (by omega)]

lemma calc_c_coeff_congr (M : ℝ → MathieuProvider) (cfg : ATConfiguration)
    (coeff coeff2 : ℕ → ℝ) (x y : ℝ) (ht : 1 ≤ cfg.num_terms)
    (h : ∀ i, i < 2 * cfg.num_terms - 1 → coeff i = coeff2 i) :
    calc_c M cfg coeff x y = calc_c M cfg coeff2 x y := by
  unfold calc_c
  cases cfg.elements.find? (fun e => e.is_inside x y) with
  | some elem => rfl
  | none =>
    simp only []
    rw [show cfg.elements.foldl
        (fun acc elem =>
          (acc.1 + (elemFactor M cfg coeff x y elem).1 * Real.exp (cfg.beta * x),
            acc.2 ++ (elemFactor M cfg coeff x y elem).2))
        ((0 : ℝ), ([] : List ℝ)) =
      cfg.elements.foldl
        (fun acc elem =>
          (acc.1 + (elemFactor M cfg coeff2 x y elem).1 * Real.exp (cfg.beta * x),
            acc.2 ++ (elemFactor M cfg coeff2 x y elem).2))
        ((0 : ℝ), ([] : List ℝ)) from
      List.foldl_ext _ _ _ (fun acc elem _ => by
        rw [elemFactor_coeff_congr M cfg coeff coeff2 x y elem ht h])]

lemma calc_uv_at_center (alpha_l alpha_t d : ℝ) (hd : d ≠ 0) :
    calc_uv alpha_l alpha_t 0 0 d = ((0 : ℝ), Real.pi / 2) := by
  have hY : Yval alpha_l alpha_t 0 = 0 := by simp [Yval]
  have hB : Bval alpha_l alpha_t 0 0 d = -d ^ 2 := by
    simp [Bval, hY]
  have hf1 : f1val alpha_l alpha_t 0 0 d = d ^ 2 := by
    rw [f1val, hB]
    rw [show (-d ^ 2) ^ 2 + 4 * d ^ 2 * (0 : ℝ) ^ 2 = (d ^ 2) ^ 2 by ring]
    exact Real.sqrt_sq (sq_nonneg d)
  have hd2 : (d : ℝ) ^ 2 ≠ 0 := pow_ne_zero 2 hd
  have hp : pval alpha_l alpha_t 0 0 d = 1 := by
    rw [pval, hB, hf1]
    field_simp
    ring
  have hq : qval alpha_l alpha_t 0 0 d = 0 := by
    rw [qval, hB, hf1]
    rw [show -(-d ^ 2) - d ^ 2 = (0 : ℝ) by ring]
    exact zero_div _
  have hpsi0 : psi0val alpha_l alpha_t 0 0 d = Real.pi / 2 := by
    rw [psi0val, hp, Real.sqrt_one]
    rw [show clip (1 : ℝ) (-1) 1 = 1 by unfold clip; norm_num]
    exact Real.arcsin_one
  have heta : etaval alpha_l alpha_t 0 0 d = 0 := by
    rw [etaval, hq]
    norm_num
  rw [calc_uv, hY, heta, hpsi0]
  norm_num

lemma chunkRows_error_eq (s : ℕ) (l : List ℝ) (e : ATError)
    (h : chunkRows s l = Except.error e) : e = ATError.rangeStepZero := by
  by_cases hs : s = 0
  · rw [chunkRows, if_pos hs] at h
    injection h with h2
    exact h2.symm
  · rw [chunkRows, if_neg hs] at h
    exact absurd h (by simp)

lemma mapM_except_error {ε α β : Type} (f : α → Except ε β) :
    ∀ (l : List α) (e : ε), l.mapM f = Except.error e →
      ∃ a ∈ l, f a = Except.error e := by
  intro l
  induction l with
  | nil =>
    intro e h
    rw [List.mapM_nil] at h
    exact absurd h (by intro hc; exact Except.noConfusion hc)
  | cons a as ih =>
    intro e h
    rw [List.mapM_cons] at h
    cases hfa : f a with
    | error e2 =>
      rw [hfa] at h
      have h2 : Except.error (α := List β) e2 = Except.error e := h
      injection h2 with h3
      exact ⟨a, List.mem_cons_self a as, by rw [hfa, h3]⟩
    | ok b =>
      rw [hfa] at h
      cases hrest : as.mapM f with
      | error e2 =>
        rw [hrest] at h
        have h2 : Except.error (α := List β) e2 = Except.error e := h
        injection h2 with h3
        obtain ⟨a2, ha2, hfa2⟩ := ih e2 hrest
        exact ⟨a2, List.mem_cons_of_mem a ha2, by rw [hfa2, h3]⟩
      | ok bs =>
        rw [hrest] at h
        have h2 : Except.ok (ε := ε) (b :: bs) = Except.error e := h
        exact absurd h2 (by intro hc; exact Except.noConfusion hc)

lemma perspective_vector_error_eq (M : ℝ → MathieuProvider)
    (cfg : ATConfiguration) (e : ATError)
    (h : perspective_vector M cfg = Except.error e) : e = ATError.rangeStepZero := by
  simp only [perspective_vector] at h
  cases hm : cfg.elements.enum.mapM
      (fun pe1 => chunkRows ((cfg.elements.length * cfg.num_terms - 1) *
        cfg.elements.length) (m_list M cfg pe1.1 pe1.2)) with
  | error e2 =>
    rw [hm] at h
    have h2 : Except.error (α := List (List ℝ)) e2 = Except.error e := h
    injection h2 with h3
    obtain ⟨a, _, hfa⟩ := mapM_except_error _ _ _ hm
    rw [← h3]
    exact chunkRows_error_eq _ _ _ hfa
  | ok v =>
    rw [hm] at h
    have h2 : Except.ok (ε := ATError) v.flatten = Except.error e := h
    exact absurd h2 (by intro hc; exact Except.noConfusion hc)

/-- Claim C1 (refuted, code bug): the spec's invariant asks for
`num_elements * num_cp` rows, each of length `num_elements * (2*num_terms - 1)`
and laid out per influencing element; the code instead chunks each source
element's `m_list` (which is influencing-element-major, collocation-point-minor)
with step `s = (num_elems * num_terms - 1) * num_elems`, so with one element,
one collocation point and two expansion orders the assembled matrix has
3 rows of length 1 instead of 1 row of length 3. -/
theorem solve_system_row_layout_bug :
    (perspective_vector Mconst cfgC1).map
      (fun rows => (rows.length, rows.map List.length)) =
      Except.ok ((3 : ℕ), ([1, 1, 1] : List ℕ)) ∧
    cfgC1.elements.length * cfgC1.num_cp = 1 ∧
    cfgC1.elements.length * (2 * cfgC1.num_terms - 1) = 3 :=
  ⟨rfl, rfl, rfl⟩

/-- Claim C2 (refuted, code bug): `calc_c` reads only coefficient indices
`0 .. 2*num_terms - 2`, the same indices for every element, so two coefficient
vectors that agree on that shared first slice produce identical results even
when they differ on the positions the claim assigns to later elements. -/
theorem calc_c_shared_slice_bug (M : ℝ → MathieuProvider) (cfg : ATConfiguration)
    (coeff coeff2 : ℕ → ℝ) (x y : ℝ) (ht : 1 ≤ cfg.num_terms)
    (h : ∀ i, i < 2 * cfg.num_terms - 1 → coeff i = coeff2 i) :
    calc_c M cfg coeff x y = calc_c M cfg coeff2 x y :=
  calc_c_coeff_congr M cfg coeff coeff2 x y ht h

/-- Witness for the claim C2 theorem: two elements with one expansion order;
the coefficient vectors agree at index 0 but differ at index 1 (the second
element's slice under the claimed per-element enumeration), yet `calc_c`
coincides on them. -/
theorem calc_c_shared_slice_bug_witness :
    (1 ≤ cfgC2.num_terms ∧
      (∀ i, i < 2 * cfgC2.num_terms - 1 → coeffA i = coeffB i) ∧
      coeffA 1 ≠ coeffB 1) ∧
    calc_c Mconst cfgC2 coeffA 0 0 = calc_c Mconst cfgC2 coeffB 0 0 := by
  have h : ∀ i, i < 2 * cfgC2.num_terms - 1 → coeffA i = coeffB i := by
    intro i hi
    have h1 : cfgC2.num_terms = 1 := rfl
    rw [h1] at hi
    have h0 : i = 0 := by omega
    rw [h0]
    rfl
  refine ⟨⟨by decide, h, by norm_num [coeffA, coeffB]⟩,
    calc_c_shared_slice_bug Mconst cfgC2 coeffA coeffB 0 0 (by decide) h⟩

/-- Claim C4 (refuted): a point coincident with the inclusion center is not
rejected; `calc_uv` returns the ordinary finite value `(eta, psi) = (0, π/2)`
at `(x, y) = (0, 0)` with `d = 1` (no validation exists in `calc_uv`). -/
theorem calc_uv_center_not_rejected :
    calc_uv 1 1 0 0 1 = ((0 : ℝ), Real.pi / 2) :=
  calc_uv_at_center 1 1 1 one_ne_zero

/-- Claim C4 as amended: `calc_uv` performs no input validation; for any
`d ≠ 0` the center point `(0, 0)` is transformed normally and yields
`(eta, psi) = (0, π/2)` (and `d = 0` surfaces in the Python code only as an
unhandled `ZeroDivisionError`, not a distinct geometry/domain error). -/
theorem calc_uv_center_processed (alpha_l alpha_t d : ℝ) (hd : d ≠ 0) :
    calc_uv alpha_l alpha_t 0 0 d = ((0 : ℝ), Real.pi / 2) :=
  calc_uv_at_center alpha_l alpha_t d hd

/-- Witness for the amended claim C4 theorem, at `alpha_l = 1`, `alpha_t = 1`,
`d = 2`. -/
theorem calc_uv_center_processed_witness :
    (2 : ℝ) ≠ 0 ∧ calc_uv 1 1 0 0 2 = ((0 : ℝ), Real.pi / 2) :=
  ⟨two_ne_zero, calc_uv_center_processed 1 1 2 two_ne_zero⟩

/-- Claim C5: when some element's interior predicate holds at `(x, y)`,
`calc_c` returns the fixed interior value of the first such element in list
order, and the result is independent of the coefficient vector (and even of
the basis provider). -/
theorem calc_c_interior_fast_path (M M2 : ℝ → MathieuProvider)
    (cfg : ATConfiguration) (coeff coeff2 : ℕ → ℝ) (x y : ℝ) (elem : ATElement)
    (h : cfg.elements.find? (fun e => e.is_inside x y) = some elem) :
    (calc_c M cfg coeff x y).1 = elem.c_inside ∧
    calc_c M cfg coeff x y = calc_c M2 cfg coeff2 x y := by
  unfold calc_c
  rw [h]
  exact ⟨rfl, rfl⟩

/-- Witness for the claim C5 theorem: the first element of `cfgC5` contains
every point; `calc_c` returns its interior value `7` for two arbitrary
different coefficient vectors. -/
theorem calc_c_interior_fast_path_witness :
    cfgC5.elements.find? (fun e => e.is_inside 0 0) = some elemIn ∧
    (calc_c Mconst cfgC5 coeffA 0 0).1 = elemIn.c_inside ∧
    calc_c Mconst cfgC5 coeffA 0 0 = calc_c Mconst cfgC5 coeffB 0 0 := by
  have h : cfgC5.elements.find? (fun e => e.is_inside 0 0) = some elemIn := rfl
  have h2 := calc_c_interior_fast_path Mconst Mconst cfgC5 coeffA coeffB 0 0 elemIn h
  exact ⟨h, h2.1, h2.2⟩

lemma solve_system_error_eq (M : ℝ → MathieuProvider)
    (lstsq : List (List ℝ) → List ℝ → (ℕ → ℝ)) (cfg : ATConfiguration)
    (e : ATError) (h : solve_system M lstsq cfg = Except.error e) :
    e = ATError.rangeStepZero := by
  unfold solve_system at h
  cases hp : perspective_vector M cfg with
  | error e2 =>
    rw [hp] at h
    have h2 : Except.error (α := ℕ → ℝ) e2 = Except.error e := h
    injection h2 with h3
    rw [← h3]
    exact perspective_vector_error_eq M cfg e2 hp
  | ok v =>
    rw [hp] at h
    have h2 : Except.ok (ε := ATError) (lstsq v (target_function_vector cfg)) =
        Except.error e := h
    exact absurd h2 (by intro hc; exact Except.noConfusion hc)

lemma calc_c_outside (M : ℝ → MathieuProvider) (cfg : ATConfiguration)
    (coeff : ℕ → ℝ) (x y : ℝ)
    (hfind : cfg.elements.find? (fun e => e.is_inside x y) = none) :
    calc_c M cfg coeff x y =
      (if cfg.ca < thresholdSum M cfg coeff x y
        then (thresholdSum M cfg coeff x y - cfg.ca) / cfg.gamma
        else thresholdSum M cfg coeff x y - cfg.ca,
       cfg.elements.flatMap (fun e => (elemFactor M cfg coeff x y e).2)) := by
  unfold calc_c
  rw [hfind]
  have hfst := foldl_fst_sum
    (fun elem => (elemFactor M cfg coeff x y elem).1 * Real.exp (cfg.beta * x))
    (fun acc elem => acc.2 ++ (elemFactor M cfg coeff x y elem).2)
    cfg.elements ((0 : ℝ), ([] : List ℝ))
  have hsnd := foldl_snd_log
    (fun acc elem => acc.1 + (elemFactor M cfg coeff x y elem).1 * Real.exp (cfg.beta * x))
    (fun elem => (elemFactor M cfg coeff x y elem).2)
    cfg.elements ((0 : ℝ), ([] : List ℝ))
  have hfold : cfg.elements.foldl
      (fun acc elem =>
        (acc.1 + (elemFactor M cfg coeff x y elem).1 * Real.exp (cfg.beta * x),
          acc.2 ++ (elemFactor M cfg coeff x y elem).2))
      ((0 : ℝ), ([] : List ℝ)) =
      (thresholdSum M cfg coeff x y,
        cfg.elements.flatMap (fun e => (elemFactor M cfg coeff x y e).2)) := by
    rw [Prod.ext_iff]
    exact ⟨by simpa [thresholdSum] using hfst, by simpa using hsnd⟩
  rw [hfold]

/-- Claim C3: for `d > 0` and `(x, y) ≠ (0, 0)`, `calc_uv` returns
`psi ∈ [0, 2π)` and a well-defined, nonnegative (hence finite) `eta`, and
`psi` is obtained from the principal arcsine `psi_0` of the clipped angular
root by the four-branch sign rule on `(Y, x)`. -/
theorem calc_uv_psi_quadrants (alpha_l alpha_t x y d : ℝ) (hd : 0 < d)
    (hxy : (x, y) ≠ ((0 : ℝ), (0 : ℝ))) :
    (0 ≤ (calc_uv alpha_l alpha_t x y d).2 ∧
      (calc_uv alpha_l alpha_t x y d).2 < 2 * Real.pi) ∧
    0 ≤ (calc_uv alpha_l alpha_t x y d).1 ∧
    ((0 ≤ Yval alpha_l alpha_t y → 0 ≤ x →
      (calc_uv alpha_l alpha_t x y d).2 = psi0val alpha_l alpha_t x y d) ∧
     (0 ≤ Yval alpha_l alpha_t y → x < 0 →
      (calc_uv alpha_l alpha_t x y d).2 =
        2 * Real.pi - psi0val alpha_l alpha_t x y d) ∧
     (Yval alpha_l alpha_t y < 0 → 0 ≤ x →
      (calc_uv alpha_l alpha_t x y d).2 =
        Real.pi - psi0val alpha_l alpha_t x y d) ∧
     (Yval alpha_l alpha_t y < 0 → x < 0 →
      (calc_uv alpha_l alpha_t x y d).2 =
        Real.pi + psi0val alpha_l alpha_t x y d)) := by
  have hd0 : d ≠ 0 := ne_of_gt hd
  have hp0 : 0 ≤ psi0val alpha_l alpha_t x y d :=
    psi0val_nonneg alpha_l alpha_t x y d
  have hp2 : psi0val alpha_l alpha_t x y d ≤ Real.pi / 2 :=
    psi0val_le_pi_div_two alpha_l alpha_t x y d
  have hpi : 0 < Real.pi := Real.pi_pos
  have heta : 0 ≤ etaval alpha_l alpha_t x y d :=
    etaval_nonneg alpha_l alpha_t x y d hd0
  simp only [calc_uv]
  split_ifs with h1 h2 h3
  · exact ⟨⟨hp0, by linarith⟩, heta,
      fun _ _ => rfl,
      fun _ hx => absurd hx (not_lt.mpr h2),
      fun hY _ => absurd h1 (not_le.mpr hY),
      fun hY _ => absurd h1 (not_le.mpr hY)⟩
  · have hx2 : x < 0 := not_le.mp h2
    have hppos : 0 < psi0val alpha_l alpha_t x y d :=
      psi0val_pos alpha_l alpha_t x y d hd0 (ne_of_lt hx2)
    exact ⟨⟨by linarith, by linarith⟩, heta,
      fun _ hx => absurd hx h2,
      fun _ _ => rfl,
      fun hY _ => absurd h1 (not_le.mpr hY),
      fun hY _ => absurd h1 (not_le.mpr hY)⟩
  · exact ⟨⟨by linarith, by linarith⟩, heta,
      fun hY _ => absurd hY h1,
      fun hY _ => absurd hY h1,
      fun _ _ => rfl,
      fun _ hx => absurd hx (not_lt.mpr h3)⟩
  · exact ⟨⟨by linarith, by linarith⟩, heta,
      fun hY _ => absurd hY h1,
      fun hY _ => absurd hY h1,
      fun _ hx => absurd hx h3,
      fun _ _ => rfl⟩

/-- Witness for the claim C3 theorem at
`(alpha_l, alpha_t, x, y, d) = (1, 1, 1, 0, 1)`. -/
theorem calc_uv_psi_quadrants_witness :
    ((0 : ℝ) < 1 ∧ ((1 : ℝ), (0 : ℝ)) ≠ ((0 : ℝ), (0 : ℝ))) ∧
    ((0 ≤ (calc_uv 1 1 1 0 1).2 ∧ (calc_uv 1 1 1 0 1).2 < 2 * Real.pi) ∧
      0 ≤ (calc_uv 1 1 1 0 1).1 ∧
      ((0 ≤ Yval 1 1 0 → 0 ≤ (1 : ℝ) →
        (calc_uv 1 1 1 0 1).2 = psi0val 1 1 1 0 1) ∧
       (0 ≤ Yval 1 1 0 → (1 : ℝ) < 0 →
        (calc_uv 1 1 1 0 1).2 = 2 * Real.pi - psi0val 1 1 1 0 1) ∧
       (Yval 1 1 0 < 0 → 0 ≤ (1 : ℝ) →
        (calc_uv 1 1 1 0 1).2 = Real.pi - psi0val 1 1 1 0 1) ∧
       (Yval 1 1 0 < 0 → (1 : ℝ) < 0 →
        (calc_uv 1 1 1 0 1).2 = Real.pi + psi0val 1 1 1 0 1))) :=
  ⟨⟨one_pos, by simp⟩, calc_uv_psi_quadrants 1 1 1 0 1 one_pos (by simp)⟩

/-- Claim C6 (refuted): with a single element of shape parameter `q = 5` and
two expansion orders, one point evaluation constructs a provider twice for
the same `q` (the construction log is `[5, 5]`), so providers are not cached
at most once per `q`. -/
theorem mathieu_provider_rebuilt_per_call :
    (calc_c Mconst cfgC6 coeffA 0 0).2 = [(5 : ℝ), 5] ∧
    (calc_c Mconst cfgC6 coeffA 0 0).2.length = 2 ∧
    ∀ r ∈ (calc_c Mconst cfgC6 coeffA 0 0).2, r = 5 := by
  have h : (calc_c Mconst cfgC6 coeffA 0 0).2 = [(5 : ℝ), 5] := rfl
  refine ⟨h, by rw [h]; rfl, ?_⟩
  intro r hr
  rw [h] at hr
  simp at hr
  exact hr

/-- Claim C6 as amended: no caching exists; every call to the basis
evaluators constructs a fresh provider, so a point evaluation outside all
elements constructs exactly `num_terms` providers per element (repeating each
element's `q`), rather than at most one per distinct `q`. -/
theorem mathieu_provider_per_call_log (M : ℝ → MathieuProvider)
    (cfg : ATConfiguration) (coeff : ℕ → ℝ) (x y : ℝ)
    (ht : 1 ≤ cfg.num_terms)
    (hout : ∀ e ∈ cfg.elements, e.is_inside x y = false) :
    (calc_c M cfg coeff x y).2 =
      cfg.elements.flatMap (fun e => List.replicate cfg.num_terms e.q) := by
  have hfind : cfg.elements.find? (fun e => e.is_inside x y) = none :=
    List.find?_eq_none.mpr (fun e he => by simp [hout e he])
  rw [calc_c_outside M cfg coeff x y hfind]
  show cfg.elements.flatMap (fun e => (elemFactor M cfg coeff x y e).2) = _
  have hfun : (fun e : ATElement => (elemFactor M cfg coeff x y e).2) =
      fun e : ATElement => List.replicate cfg.num_terms e.q := by
    funext e
    exact elemFactor_log M cfg coeff x y e ht
  rw [hfun]

/-- Witness for the amended claim C6 theorem on `cfgC6`. -/
theorem mathieu_provider_per_call_log_witness :
    (1 ≤ cfgC6.num_terms ∧ ∀ e ∈ cfgC6.elements, e.is_inside 0 0 = false) ∧
    (calc_c Mconst cfgC6 coeffA 0 0).2 =
      cfgC6.elements.flatMap (fun e => List.replicate cfgC6.num_terms e.q) := by
  have hout : ∀ e ∈ cfgC6.elements, e.is_inside 0 0 = false := by
    intro e he
    have h : e = elemQ5 := by simpa [cfgC6] using he
    rw [h]
    rfl
  exact ⟨⟨by decide, hout⟩,
    mathieu_provider_per_call_log Mconst cfgC6 coeffA 0 0 (by decide) hout⟩

/-- Claim C7: `run` raises the empty-element-list configuration error exactly
for configurations with no elements; the guard is the first statement of
`run`, before any geometry setup, assembly or grid work, and for nonempty
element lists this error is never raised (any failure of the later phases is
the distinct row-chunking `ValueError`). -/
theorem run_rejects_empty_elements (M : ℝ → MathieuProvider)
    (lstsq : List (List ℝ) → List ℝ → (ℕ → ℝ)) (setup : ATElement → ATElement)
    (cfg : ATConfiguration) :
    run M lstsq setup cfg = Except.error ATError.noElements ↔
      cfg.elements = [] := by
  constructor
  · intro h
    by_contra hne
    have hlen : cfg.elements.length ≠ 0 :=
      fun hl => hne (List.length_eq_zero.mp hl)
    rw [run, if_neg hlen] at h
    cases hs : solve_system M lstsq (run_setup setup cfg) with
    | error e2 =>
      rw [hs] at h
      have h2 : Except.error (α := (ℕ → ℝ) × List (List ℝ)) e2 =
          Except.error ATError.noElements := h
      injection h2 with h3
      have h4 : e2 = ATError.rangeStepZero :=
        solve_system_error_eq M lstsq (run_setup setup cfg) e2 hs
      rw [h4] at h3
      exact absurd h3 (by decide)
    | ok v =>
      rw [hs] at h
      have h2 : Except.ok (ε := ATError)
          (v, conc_array M (run_setup setup cfg) v cfg.dom_xmin cfg.dom_ymin
            cfg.dom_xmax cfg.dom_ymax cfg.dom_inc) =
          Except.error ATError.noElements := h
      exact absurd h2 (by intro hc; exact Except.noConfusion hc)
  · intro h
    have hlen : cfg.elements.length = 0 := by rw [h]; rfl
    rw [run, if_pos hlen]

/-- Claim C8: for a point outside every element's interior, `calc_c` applies
the two-branch post-processing to the accumulated total `T`: the result is
`(T - ca) / gamma` when `T > ca` and `T - ca` otherwise. -/
theorem calc_c_two_branch_postprocessing (M : ℝ → MathieuProvider)
    (cfg : ATConfiguration) (coeff : ℕ → ℝ) (x y : ℝ)
    (hout : ∀ e ∈ cfg.elements, e.is_inside x y = false) :
    (calc_c M cfg coeff x y).1 =
      if cfg.ca < thresholdSum M cfg coeff x y
        then (thresholdSum M cfg coeff x y - cfg.ca) / cfg.gamma
        else thresholdSum M cfg coeff x y - cfg.ca := by
  have hfind : cfg.elements.find? (fun e => e.is_inside x y) = none :=
    List.find?_eq_none.mpr (fun e he => by simp [hout e he])
  rw [calc_c_outside M cfg coeff x y hfind]

/-- Witness for the claim C8 theorem on `cfgC2` at the point `(1, 1)`. -/
theorem calc_c_two_branch_witness :
    (∀ e ∈ cfgC2.elements, e.is_inside 1 1 = false) ∧
    (calc_c Mconst cfgC2 coeffA 1 1).1 =
      (if cfgC2.ca < thresholdSum Mconst cfgC2 coeffA 1 1
        then (thresholdSum Mconst cfgC2 coeffA 1 1 - cfgC2.ca) / cfgC2.gamma
        else thresholdSum Mconst cfgC2 coeffA 1 1 - cfgC2.ca) := by
  have hout : ∀ e ∈ cfgC2.elements, e.is_inside 1 1 = false := by
    intro e he
    have h : e = elemOut ∨ e = elemFar := by simpa [cfgC2] using he
    cases h with
    | inl h2 => rw [h2]; rfl
    | inr h2 => rw [h2]; rfl
  exact ⟨hout, calc_c_two_branch_postprocessing Mconst cfgC2 coeffA 1 1 hout⟩

/-- Claim C9: the grid has one row per half-open x-axis step and one entry
per half-open y-axis step in each row, `result[j][i]` equals `calc_c` at
`(xaxis[j], yaxis[i]) = (xmin + j*inc, ymin + i*inc)`, and the output is a
pure function of the inputs (hence reproducible). -/
theorem conc_array_grid_shape (M : ℝ → MathieuProvider) (cfg : ATConfiguration)
    (coeff : ℕ → ℝ) (xmin ymin xmax ymax inc : ℝ) (hinc : 0 < inc) :
    (conc_array M cfg coeff xmin ymin xmax ymax inc).length =
      arangeLen xmin xmax inc ∧
    (∀ row ∈ conc_array M cfg coeff xmin ymin xmax ymax inc,
      row.length = arangeLen ymin ymax inc) ∧
    (∀ j i, j < arangeLen xmin xmax inc → i < arangeLen ymin ymax inc →
      ((conc_array M cfg coeff xmin ymin xmax ymax inc).getD j []).getD i 0 =
        (calc_c M cfg coeff (xmin + j * inc) (ymin + i * inc)).1) := by
  refine ⟨by simp only [conc_array, arange, List.length_map, List.length_range],
    ?_, ?_⟩
  · intro row hrow
    simp only [conc_array, List.mem_map] at hrow
    obtain ⟨xv, hxv, hrow⟩ := hrow
    rw [← hrow]
    simp only [arange, List.length_map, List.length_range]
  · intro j i hj hi
    have hx : (arange xmin xmax inc)[j]? = some (xmin + j * inc) := by
      rw [arange, List.getElem?_map, List.getElem?_range hj]
      rfl
    have hy : (arange ymin ymax inc)[i]? = some (ymin + i * inc) := by
      rw [arange, List.getElem?_map, List.getElem?_range hi]
      rfl
    have houter : (conc_array M cfg coeff xmin ymin xmax ymax inc).getD j [] =
        (arange ymin ymax inc).map
          (fun yv => (calc_c M cfg coeff (xmin + j * inc) yv).1) := by
      rw [List.getD_eq_getElem?_getD, conc_array, List.getElem?_map, hx,
        Option.map_some', Option.getD_some]
    rw [houter, List.getD_eq_getElem?_getD, List.getElem?_map, hy,
      Option.map_some', Option.getD_some]

/-- Witness for the claim C9 theorem on `cfgC1` over the unit square with
step `1`. -/
theorem conc_array_grid_shape_witness :
    (0 : ℝ) < 1 ∧
    ((conc_array Mconst cfgC1 coeffA 0 0 1 1 1).length = arangeLen 0 1 1 ∧
      (∀ row ∈ conc_array Mconst cfgC1 coeffA 0 0 1 1 1,
        row.length = arangeLen 0 1 1) ∧
      (∀ j i, j < arangeLen 0 1 1 → i < arangeLen 0 1 1 →
        ((conc_array Mconst cfgC1 coeffA 0 0 1 1 1).getD j []).getD i 0 =
          (calc_c Mconst cfgC1 coeffA (0 + j * 1) (0 + i * 1)).1)) :=
  ⟨one_pos, conc_array_grid_shape Mconst cfgC1 coeffA 0 0 1 1 1 one_pos⟩

/-- Claim C10: for any real input and `d ≠ 0`, the radial root `q` is
nonpositive, the radicand `q^2 - q` is nonnegative, the logarithm argument
`1 - 2q + 2*sqrt(q^2 - q)` is at least `1`, and hence `eta` is well defined,
finite and nonnegative: the non-positive-logarithm domain error is
unreachable. -/
theorem qval_domain_safe (alpha_l alpha_t x y d : ℝ) (hd : d ≠ 0) :
    qval alpha_l alpha_t x y d ≤ 0 ∧
    0 ≤ qval alpha_l alpha_t x y d ^ 2 - qval alpha_l alpha_t x y d ∧
    1 ≤ 1 - 2 * qval alpha_l alpha_t x y d +
      2 * Real.sqrt (qval alpha_l alpha_t x y d ^ 2 -
        qval alpha_l alpha_t x y d) ∧
    0 ≤ etaval alpha_l alpha_t x y d := by
  have hq := qval_nonpos alpha_l alpha_t x y d hd
  exact ⟨hq, by nlinarith [sq_nonneg (qval alpha_l alpha_t x y d)],
    log_arg_ge_one alpha_l alpha_t x y d hd,
    etaval_nonneg alpha_l alpha_t x y d hd⟩

/-- Witness for the claim C10 theorem at
`(alpha_l, alpha_t, x, y, d) = (1, 1, 2, 3, 1)`. -/
theorem qval_domain_safe_witness :
    (1 : ℝ) ≠ 0 ∧
    (qval 1 1 2 3 1 ≤ 0 ∧
      0 ≤ qval 1 1 2 3 1 ^ 2 - qval 1 1 2 3 1 ∧
      1 ≤ 1 - 2 * qval 1 1 2 3 1 +
        2 * Real.sqrt (qval 1 1 2 3 1 ^ 2 - qval 1 1 2 3 1) ∧
      0 ≤ etaval 1 1 2 3 1) :=
  ⟨one_ne_zero, qval_domain_safe 1 1 2 3 1 one_ne_zero⟩

end AT
